import Mathlib

/-!
Shallow embedding of the speech output pipeline of `pan_speech.py`
(`SpeakManager`): the text chunker `_chunk_text`, the engine adapter
`_speak_chunk` with its fallback chain, the worker loop `_worker`, and the
control surface `speak` / `stop`.  Strings are modelled as `List Char`
(Python `len` counts code points, as does `List.length` here), Python float
wall-clock times as `ℤ` seconds, float volumes as `ℚ`, and the outcome of
every fallible backend call as an explicit environment parameter.
-/

namespace Pan

/-! ### Character classes used by `_chunk_text` -/

/-- Whitespace stripped by Python's `str.strip()` (the ASCII whitespace set). -/
def isPyWhite (c : Char) : Bool :=
  c == ' ' || c == '\t' || c == '\n' || c == '\r' || c == '\x0b' || c == '\x0c'

/-- Sentence-terminal punctuation of the regex `(?<=[.!?]) +` (line 188). -/
def isSentencePunct (c : Char) : Bool :=
  c == '.' || c == '!' || c == '?'

/-- Secondary punctuation of the regex `(?<=,|;|:) +` (line 207). -/
def isSecondaryPunct (c : Char) : Bool :=
  c == ',' || c == ';' || c == ':'

/-- Any punctuation character the chunking algorithm splits on. -/
def isPunctChar (c : Char) : Bool :=
  isSentencePunct c || isSecondaryPunct c

/-! ### The split `re.split(r"(?<=[.!?]) +", text)`

The regex splits the text at every maximal run of spaces that is immediately
preceded by a matching punctuation character; the spaces are consumed.
`splitCore` makes one left-to-right pass; the `skip` flag is true while the
separator's spaces are being consumed. -/

/-- Prepend a character to the first segment of a segment list. -/
def consHead (c : Char) : List (List Char) → List (List Char)
  | [] => [[c]]
  | s :: ss => (c :: s) :: ss

/-- Split after every punctuation character (per `isP`) that is followed by
one or more spaces, consuming the spaces, as Python's
`re.split(r"(?<=[.!?]) +", text)` does. -/
def splitCore (isP : Char → Bool) : Bool → List Char → List (List Char)
  | _, [] => [[]]
  | skip, c :: rest =>
    if skip && c == ' ' then splitCore isP true rest
    else if isP c && rest.head? == some ' ' then
      [c] :: splitCore isP true rest
    else
      consHead c (splitCore isP false rest)

/-- `re.split(r"(?<=[.!?]) +", text)` respectively `re.split(r"(?<=,|;|:) +", s)`. -/
def pySplitAfter (isP : Char → Bool) (l : List Char) : List (List Char) :=
  splitCore isP false l

/-! ### Python `str.strip()` -/

/-- Remove leading whitespace. -/
def pyStripLeft (l : List Char) : List Char := l.dropWhile isPyWhite

/-- Remove trailing whitespace. -/
def pyStripRight (l : List Char) : List Char := (l.reverse.dropWhile isPyWhite).reverse

/-- Python's `str.strip()`: remove whitespace from both ends. -/
def pyStrip (l : List Char) : List Char := pyStripLeft (pyStripRight l)

/-! ### `SpeakManager._chunk_text` (pan_speech.py lines 170-223) -/

/-- Module constant `MAX_CHUNK_LENGTH` (line 69). -/
def MAX_CHUNK_LENGTH : Nat := 150

/-- `chunk_size = 300 if is_macos else MAX_CHUNK_LENGTH` (line 185). -/
def chunk_size (isMacos : Bool) : Nat := if isMacos then 300 else MAX_CHUNK_LENGTH

/-- The pattern `if current: chunks.append(current.strip())` (lines 201-202,
213-214, 216-217, 220-221): flush a non-empty accumulator, stripped. -/
def flushTo (chunks : List (List Char)) (cur : List Char) : List (List Char) :=
  if cur.isEmpty then chunks else chunks ++ [pyStrip cur]

/-- One iteration of the inner loop over `subparts` (lines 209-215): greedy
packing of sub-sentence parts.  State is `(chunks, subcurrent)`. -/
def subStep (size : Nat) (st : List (List Char) × List Char) (part : List Char) :
    List (List Char) × List Char :=
  if st.2.length + part.length ≤ size then
    (st.1, st.2 ++ part ++ [' '])
  else
    (flushTo st.1 st.2, part ++ [' '])

/-- Lines 205-217: an oversized sentence is split again on secondary
punctuation and greedily packed; the packed accumulator is flushed at the end. -/
def chunksAfterSub (size : Nat) (chunks : List (List Char)) (sentence : List Char) :
    List (List Char) :=
  flushTo ((pySplitAfter isSecondaryPunct sentence).foldl (subStep size) (chunks, [])).1
    ((pySplitAfter isSecondaryPunct sentence).foldl (subStep size) (chunks, [])).2

/-- One iteration of the outer loop over `sentences` (lines 196-219).  State is
`(chunks, current)`.  In the oversized-sentence branch the source never resets
`current` after flushing it, so the pair returned there keeps the old
`current`, exactly as the Python does. -/
def sentStep (size : Nat) (st : List (List Char) × List Char) (sentence : List Char) :
    List (List Char) × List Char :=
  if st.2.length + sentence.length ≤ size then
    (st.1, st.2 ++ sentence ++ [' '])
  else if size < sentence.length then
    (chunksAfterSub size (flushTo st.1 st.2) sentence, st.2)
  else
    (flushTo st.1 st.2, sentence ++ [' '])

/-- `SpeakManager._chunk_text` (lines 170-223): fast path for short text,
otherwise greedy packing of the sentence split, with a secondary split for
oversized sentences. -/
def chunk_text (isMacos : Bool) (text : List Char) : List (List Char) :=
  if text.length ≤ chunk_size isMacos then [text]
  else
    flushTo ((pySplitAfter isSentencePunct text).foldl (sentStep (chunk_size isMacos)) ([], [])).1
      ((pySplitAfter isSentencePunct text).foldl (sentStep (chunk_size isMacos)) ([], [])).2

/-! ### Words of a text (for the reconstruction property) -/

/-- The word sequence of a text: maximal whitespace-free runs, i.e. Python's
`text.split()`. -/
def pyWords (l : List Char) : List (List Char) :=
  (l.splitOnP (fun c => isPyWhite c)).filter (fun w => !w.isEmpty)

/-- Join chunks with a single separating space (the separator the worker's
pause between chunks stands for). -/
def joinChunks (cs : List (List Char)) : List Char :=
  List.intercalate [' '] cs

/-! ### Split-point freedom: what an unsplittable token looks like -/

/-- `noAdj isP l` holds when `l` has no character matched by `isP` that is
immediately followed by a space — no split point of the corresponding
`re.split` pattern. -/
def noAdj (isP : Char → Bool) : List Char → Bool
  | [] => true
  | [_] => true
  | a :: b :: r => !(isP a && b == ' ') && noAdj isP (b :: r)

/-- A chunk the bound claim accepts: within the size limit, or an atomic
token in the structural sense — it offers neither a sentence split point nor
a secondary split point. -/
def GoodChunk (size : Nat) (c : List Char) : Prop :=
  c.length ≤ size ∨
    (noAdj isSentencePunct c = true ∧ noAdj isSecondaryPunct c = true)

/-- Invariant of the inner packing loop: produced chunks are good, and the
accumulator either strips to within the limit or strips to an atomic token. -/
def SubInv (size : Nat) (st : List (List Char) × List Char) : Prop :=
  (∀ c ∈ st.1, GoodChunk size c) ∧
    ((pyStripRight st.2).length ≤ size ∨
      (noAdj isSentencePunct (pyStrip st.2) = true ∧
        noAdj isSecondaryPunct (pyStrip st.2) = true))

/-- Invariant of the outer packing loop: produced chunks are good and the
accumulator strips to within the limit. -/
def MainInv (size : Nat) (st : List (List Char) × List Char) : Prop :=
  (∀ c ∈ st.1, GoodChunk size c) ∧ (pyStripRight st.2).length ≤ size

/-- A failing input for the chunk reconstruction property: one short sentence
followed by one sentence longer than the non-macOS chunk size of 150. -/
def dupExample : List Char := 'H' :: 'i' :: '.' :: ' ' :: List.replicate 151 'b'

/-! ### Platforms, exceptions and voice profiles -/

/-- The platform detected at module import (lines 44-46). -/
inductive Platform
  | windows
  | linux
  | macos
  | other
deriving DecidableEq

/-- `p = macos` as a Bool, for the chunker's platform flag. -/
def platformIsMacos : Platform → Bool
  | Platform.macos => true
  | _ => false

/-- The Python exception classes the module's handlers distinguish.  A
`RuntimeError` carries whether its message contains
`"run loop already started"` (line 331); `otherError` stands for any
exception class the handlers do not name (e.g. a COM error from SAPI). -/
inductive PyExc
  | attributeError
  | runtimeError (runLoopMsg : Bool)
  | ioError
  | otherError
deriving DecidableEq

/-- A voice profile: `{rate, volume}` (floats modelled as `ℚ`). -/
structure VoiceProfile where
  rate : Int
  volume : ℚ
deriving DecidableEq

/-- `DEFAULT_VOICE_RATE` from `pan_config.py` (160, raised to 190 on macOS). -/
def DEFAULT_VOICE_RATE (p : Platform) : Int :=
  if p = Platform.macos then 190 else 160

/-- `DEFAULT_VOICE_VOLUME` from `pan_config.py` (0.9). -/
def DEFAULT_VOICE_VOLUME : ℚ := 9 / 10

/-- The `emotion_voices` table (lines 57-66); unknown moods fall back to
`neutral` exactly as `emotion_voices.get(mood, emotion_voices["neutral"])`
does (line 166). -/
def emotion_voices (p : Platform) (mood : String) : VoiceProfile :=
  let r := DEFAULT_VOICE_RATE p
  let v := DEFAULT_VOICE_VOLUME
  if mood = "happy" then ⟨r + 20, v + 1/10⟩
  else if mood = "excited" then ⟨r + 40, v + 1/10⟩
  else if mood = "neutral" then ⟨r, v⟩
  else if mood = "sad" then ⟨r - 20, v - 2/10⟩
  else if mood = "angry" then ⟨r + 40, v + 1/10⟩
  else if mood = "scared" then ⟨r - 30, v - 3/10⟩
  else if mood = "calm" then ⟨r - 10, v - 1/10⟩
  else if mood = "curious" then ⟨r + 10, v⟩
  else ⟨r, v⟩

/-- `set_voice_by_mood` (lines 163-165): a falsy mood (absent or the empty
string) falls back to the ambient mood from `pan_emotions.get_mood()`. -/
def resolveMood (ambient : String) (mood : Option String) : String :=
  match mood with
  | none => ambient
  | some m => if m = "" then ambient else m

/-- The voice profile `set_voice_by_mood` applies for a request's mood. -/
def voiceFor (p : Platform) (ambient : String) (mood : Option String) : VoiceProfile :=
  emotion_voices p (resolveMood ambient mood)

/-! ### The engine adapter `_speak_chunk` (lines 273-381)

Every backend call the adapter makes is an observable event; the outcome of
each call is supplied by an `EngineEnv`. -/

/-- Observable actions of the speech pipeline. -/
inductive SpeechEvent
  | flagSet
  | flagClear
  | engineStop
  | applyVoice (profile : VoiceProfile)
  | sapiSpeak (chunk : List Char)
  | engineSay (chunk : List Char)
  | sysCommand (chunk : List Char)
  | consolePrint (chunk : List Char)
  | reinitEngine
deriving DecidableEq

/-- Outcomes of the backend calls one `_speak_chunk` invocation can make;
`none` means the call returns normally, `some e` that it raises `e`. -/
structure EngineEnv where
  sapiAvailable : Bool
  engineAvailable : Bool
  sapiResult : Option PyExc
  sayResult : Option PyExc
  runResult : Option PyExc
  sysCmdOk : Bool
  initRaises : Bool
  engineAfterInit : Bool
  setVoice2Result : Option PyExc
  say2Result : Option PyExc
  run2Result : Option PyExc
deriving DecidableEq

/-- The reliability-tracking fields of `SpeakManager` that `_speak_chunk`
reads and writes (lines 89-91). -/
structure SpeakChunkState where
  ttsAttemptCount : Nat
  lastTtsAttemptTime : Int
  lastRestartTime : Int
deriving DecidableEq

/-- Result of one `_speak_chunk` invocation: the updated state, the exception
it propagates to its caller (if any), and the backend events it performed. -/
structure ChunkResult where
  state : SpeakChunkState
  exc : Option PyExc
  events : List SpeechEvent
deriving DecidableEq

/-- `_try_system_command_tts` (lines 242-271): `say` on macOS, `espeak` on
Linux (succeeding iff the subprocess does), `False` on every other platform;
its own exceptions are all caught internally, so it never raises. -/
def try_system_command_tts (p : Platform) (env : EngineEnv) : Bool :=
  if p = Platform.macos ∨ p = Platform.linux then env.sysCmdOk else false

/-- The subprocess event of `_try_system_command_tts` (none is run off
macOS/Linux). -/
def sysCommandEvents (p : Platform) (chunk : List Char) : List SpeechEvent :=
  if p = Platform.macos ∨ p = Platform.linux then [SpeechEvent.sysCommand chunk] else []

/-- The exception classes the SAPI attempt catches (line 315):
`except (AttributeError, RuntimeError)`. -/
def sapiCaught : PyExc → Bool
  | PyExc.attributeError => true
  | PyExc.runtimeError _ => true
  | _ => false

/-- `none` or an exception the SAPI handler catches. -/
def sapiOutcomeOk : Option PyExc → Bool
  | none => true
  | some e => sapiCaught e

/-- Lines 346-374 of `_speak_chunk`: rate-limited engine reinitialization and
one retry; every exception raised in this section is caught (lines 371-374).
Returns the new state, whether the retry spoke successfully (the `return` at
line 370), and the events performed. -/
def reinitTry (p : Platform) (ambient : String) (mood : Option String) (env : EngineEnv)
    (now : Int) (st : SpeakChunkState) (chunk : List Char) :
    SpeakChunkState × Bool × List SpeechEvent :=
  if now - st.lastRestartTime > 5 then
    if env.initRaises then (st, false, [SpeechEvent.reinitEngine])
    else
      let st1 := { st with lastRestartTime := now }
      if env.engineAfterInit then
        match env.setVoice2Result with
        | some _ =>
          (st1, false, [SpeechEvent.reinitEngine, SpeechEvent.applyVoice (voiceFor p ambient mood)])
        | none =>
          match env.say2Result with
          | some _ =>
            (st1, false, [SpeechEvent.reinitEngine,
              SpeechEvent.applyVoice (voiceFor p ambient mood), SpeechEvent.engineSay chunk])
          | none =>
            match env.run2Result with
            | some _ =>
              (st1, false, [SpeechEvent.reinitEngine,
                SpeechEvent.applyVoice (voiceFor p ambient mood), SpeechEvent.engineSay chunk])
            | none =>
              ({ st1 with ttsAttemptCount := 0 }, true, [SpeechEvent.reinitEngine,
                SpeechEvent.applyVoice (voiceFor p ambient mood), SpeechEvent.engineSay chunk])
      else (st1, false, [SpeechEvent.reinitEngine])
  else (st, false, [])

/-- Lines 377-381 of `_speak_chunk`: last-resort system command, then the
console print; only the system-command success resets the attempt counter. -/
def finalFallback (p : Platform) (env : EngineEnv) (st : SpeakChunkState) (chunk : List Char) :
    SpeakChunkState × List SpeechEvent :=
  if try_system_command_tts p env then
    ({ st with ttsAttemptCount := 0 }, sysCommandEvents p chunk)
  else
    (st, sysCommandEvents p chunk ++ [SpeechEvent.consolePrint chunk])

/-- Prefix events onto a chunk result. -/
def withEvents (evs : List SpeechEvent) (r : ChunkResult) : ChunkResult :=
  { r with events := evs ++ r.events }

/-- Lines 346-381: reinitialization section followed (when the retry did not
already return) by the final fallback; never raises. -/
def reinitAndFallback (p : Platform) (ambient : String) (mood : Option String)
    (env : EngineEnv) (now : Int) (st : SpeakChunkState) (chunk : List Char) : ChunkResult :=
  let r := reinitTry p ambient mood env now st chunk
  if r.2.1 then { state := r.1, exc := none, events := r.2.2 }
  else
    let f := finalFallback p env r.1 chunk
    { state := f.1, exc := none, events := r.2.2 ++ f.2 }

/-- Lines 320-344 of `_speak_chunk`: the generic pyttsx3 attempt.  `say` and
non-`RuntimeError` failures of `runAndWait` are caught by the broad
`except Exception` (line 343); a `RuntimeError` whose message names the run
loop first tries the system command (lines 330-337); every failure falls
through to the reinitialization section. -/
def speakChunkEngine (p : Platform) (ambient : String) (mood : Option String)
    (env : EngineEnv) (now : Int) (st : SpeakChunkState) (chunk : List Char) : ChunkResult :=
  if env.engineAvailable then
    match env.sayResult with
    | some _ =>
      withEvents [SpeechEvent.engineSay chunk]
        (reinitAndFallback p ambient mood env now st chunk)
    | none =>
      match env.runResult with
      | none =>
        { state := { st with ttsAttemptCount := 0 }, exc := none,
          events := [SpeechEvent.engineSay chunk] }
      | some (PyExc.runtimeError true) =>
        if try_system_command_tts p env then
          { state := { st with ttsAttemptCount := 0 }, exc := none,
            events := SpeechEvent.engineSay chunk :: sysCommandEvents p chunk }
        else
          withEvents (SpeechEvent.engineSay chunk :: sysCommandEvents p chunk)
            (reinitAndFallback p ambient mood env now st chunk)
      | some _ =>
        withEvents [SpeechEvent.engineSay chunk]
          (reinitAndFallback p ambient mood env now st chunk)
  else reinitAndFallback p ambient mood env now st chunk

/-- Lines 284-294 of `_speak_chunk`: the consecutive-failure counter is
reset after more than 10 seconds without attempts, then this attempt is
counted. -/
def attemptCount (now : Int) (st : SpeakChunkState) : Nat :=
  (if now - st.lastTtsAttemptTime > 10 then 0 else st.ttsAttemptCount) + 1

/-- The state after the attempt accounting of lines 284-294. -/
def touchState (now : Int) (st : SpeakChunkState) : SpeakChunkState :=
  { ttsAttemptCount := attemptCount now st, lastTtsAttemptTime := now,
    lastRestartTime := st.lastRestartTime }

/-- `SpeakManager._speak_chunk` (lines 273-381): attempt accounting and
time-based reset (lines 284-294), fast fallback after more than 3 attempts
(lines 297-306), the Windows SAPI attempt whose handler catches only
`AttributeError` and `RuntimeError` (lines 309-317) so that any other
exception class propagates to the caller, then the generic engine attempt
with reinitialization and fallbacks. -/
def speak_chunk (p : Platform) (ambient : String) (mood : Option String) (env : EngineEnv)
    (now : Int) (st : SpeakChunkState) (chunk : List Char) : ChunkResult :=
  if attemptCount now st > 3 then
    if try_system_command_tts p env then
      { state := { touchState now st with ttsAttemptCount := 0 }, exc := none,
        events := sysCommandEvents p chunk }
    else
      { state := { touchState now st with ttsAttemptCount := 0 }, exc := none,
        events := sysCommandEvents p chunk ++ [SpeechEvent.consolePrint chunk] }
  else if p = Platform.windows ∧ env.sapiAvailable = true then
    match env.sapiResult with
    | none =>
      { state := { touchState now st with ttsAttemptCount := 0 }, exc := none,
        events := [SpeechEvent.sapiSpeak chunk] }
    | some e =>
      if sapiCaught e then
        withEvents [SpeechEvent.sapiSpeak chunk]
          (speakChunkEngine p ambient mood env now (touchState now st) chunk)
      else
        { state := touchState now st, exc := some e,
          events := [SpeechEvent.sapiSpeak chunk] }
  else speakChunkEngine p ambient mood env now (touchState now st) chunk

/-! ### The worker loop `_worker` processing one request (lines 405-438) -/

/-- The environment one request is processed in: the platform, the ambient
mood, whether the engine reported busy (line 410), the outcome of the
request-level `set_voice_by_mood` call (line 417), and per-chunk-index the
engine environment, the wall-clock time, and the value of `exit_requested`
read at the check before that chunk (line 422). -/
structure RequestEnv where
  platform : Platform
  ambientMood : String
  engineBusy : Bool
  setVoiceExc : Option PyExc
  chunkEnv : Nat → EngineEnv
  chunkTime : Nat → Int
  exitAt : Nat → Bool

/-- Result of processing one request: events, the chunks actually handed to
`_speak_chunk`, the final reliability state, and the exception the request
body raised into the worker's handlers (if any). -/
structure LoopResult where
  events : List SpeechEvent
  spoken : List (List Char)
  state : SpeakChunkState
  exc : Option PyExc

/-- The per-chunk loop (lines 420-427): read the cancellation flag before
each chunk, break when it is set, speak the chunk otherwise; an exception
propagating out of `_speak_chunk` aborts the loop. -/
def runChunks (renv : RequestEnv) (mood : Option String) :
    Nat → SpeakChunkState → List (List Char) → LoopResult
  | _, st, [] => { events := [], spoken := [], state := st, exc := none }
  | i, st, chunk :: rest =>
    if renv.exitAt i then { events := [], spoken := [], state := st, exc := none }
    else
      let r := speak_chunk renv.platform renv.ambientMood mood (renv.chunkEnv i)
        (renv.chunkTime i) st chunk
      match r.exc with
      | some e => { events := r.events, spoken := [chunk], state := r.state, exc := some e }
      | none =>
        let k := runChunks renv mood (i + 1) r.state rest
        { events := r.events ++ k.events, spoken := chunk :: k.spoken,
          state := k.state, exc := k.exc }

/-- Processing of one dequeued request by `_worker` (lines 405-438): stop a
busy engine, set the speaking flag, apply the voice profile once, chunk the
text, run the chunk loop, and clear the speaking flag in the `finally`
(line 436) whatever happened.  The busy-check itself is modelled as
non-raising. -/
def processRequest (renv : RequestEnv) (st0 : SpeakChunkState)
    (text : List Char) (mood : Option String) : LoopResult :=
  let pre := (if renv.engineBusy then [SpeechEvent.engineStop] else []) ++ [SpeechEvent.flagSet]
  let profile := voiceFor renv.platform renv.ambientMood mood
  match renv.setVoiceExc with
  | some e =>
    { events := pre ++ [SpeechEvent.applyVoice profile, SpeechEvent.flagClear],
      spoken := [], state := st0, exc := some e }
  | none =>
    let k := runChunks renv mood 0 st0 (chunk_text (platformIsMacos renv.platform) text)
    { events := pre ++ [SpeechEvent.applyVoice profile] ++ k.events ++ [SpeechEvent.flagClear],
      spoken := k.spoken, state := k.state, exc := k.exc }

/-- Is an event an application of a voice profile? -/
def isApplyVoice : SpeechEvent → Bool
  | SpeechEvent.applyVoice _ => true
  | _ => false

/-- Is an event a transition of the speaking flag? -/
def isFlagEvent : SpeechEvent → Bool
  | SpeechEvent.flagSet => true
  | SpeechEvent.flagClear => true
  | _ => false

/-- An engine environment under which `_speak_chunk` succeeds on its first
backend attempt (SAPI on Windows, the pyttsx3 engine elsewhere) and so never
reaches the reinitialization path. -/
def QuickSuccessEnv (p : Platform) (env : EngineEnv) : Prop :=
  (p = Platform.windows ∧ env.sapiAvailable = true ∧ env.sapiResult = none) ∨
    (¬(p = Platform.windows ∧ env.sapiAvailable = true) ∧ env.engineAvailable = true ∧
      env.sayResult = none ∧ env.runResult = none)

/-! ### The manager state machine: `speak`, `stop` and the worker thread -/

/-- Where the worker thread stands in its loop. -/
inductive WorkerPhase
  | atLoop
  | inGet
  | dead
deriving DecidableEq

/-- The cross-thread state of a `SpeakManager`: the queue, the
`exit_requested` flag, the speaking flag, the worker's position, and the
texts whose processing the worker has started. -/
structure ManagerState where
  queue : List (List Char × Option String)
  exitRequested : Bool
  speaking : Bool
  phase : WorkerPhase
  spokenTexts : List (List Char)
deriving DecidableEq

/-- Atomic steps of the manager: the producer calls `speak` (lines 447-448)
or `stop` (lines 101-126); the worker evaluates its loop condition
(line 391) or returns from `queue.get` and runs the rest of the iteration
(lines 395-438). -/
inductive MStep
  | speakCall (text : List Char) (mood : Option String)
  | stopCall
  | workerEnterLoop
  | workerGetResult
deriving DecidableEq

/-- One step of the manager.  `speak` enqueues unconditionally; `stop` sets
`exit_requested`, drains the queue and clears the speaking flag; the worker
loop exits when it sees the flag at its condition check, and an item dequeued
after the flag was set is marked done and discarded without being spoken
(lines 401-403). -/
def mstep (s : ManagerState) : MStep → ManagerState
  | MStep.speakCall t m => { s with queue := s.queue ++ [(t, m)] }
  | MStep.stopCall => { s with exitRequested := true, queue := [], speaking := false }
  | MStep.workerEnterLoop =>
    match s.phase with
    | WorkerPhase.atLoop =>
      if s.exitRequested then { s with phase := WorkerPhase.dead }
      else { s with phase := WorkerPhase.inGet }
    | _ => s
  | MStep.workerGetResult =>
    match s.phase with
    | WorkerPhase.inGet =>
      match s.queue with
      | [] => { s with phase := WorkerPhase.atLoop }
      | (t, _) :: rest =>
        if s.exitRequested then
          { s with queue := rest, phase := WorkerPhase.atLoop }
        else
          { s with queue := rest, phase := WorkerPhase.atLoop, speaking := false,
                   spokenTexts := s.spokenTexts ++ [t] }
    | _ => s

/-- Run a sequence of manager steps. -/
def msteps (s : ManagerState) (steps : List MStep) : ManagerState :=
  steps.foldl mstep s

/-! ### Concrete instances used by counterexamples and witnesses -/

/-- A fresh reliability state (counter 0, both clocks at 0). -/
def freshState : SpeakChunkState :=
  { ttsAttemptCount := 0, lastTtsAttemptTime := 0, lastRestartTime := 0 }

/-- Windows with SAPI available, where `sapi_engine.Speak` raises an
exception that is neither `AttributeError` nor `RuntimeError`. -/
def sapiLeakEnv : EngineEnv :=
  { sapiAvailable := true, engineAvailable := true, sapiResult := some PyExc.ioError,
    sayResult := none, runResult := none, sysCmdOk := false, initRaises := false,
    engineAfterInit := true, setVoice2Result := none, say2Result := none,
    run2Result := none }

/-- Every audio backend fails with an anticipated exception class: the engine
raises on `say`, the system command fails, and the retry after
reinitialization raises too. -/
def allFailEnv : EngineEnv :=
  { sapiAvailable := false, engineAvailable := true,
    sapiResult := none, sayResult := some PyExc.otherError,
    runResult := some PyExc.otherError, sysCmdOk := false, initRaises := false,
    engineAfterInit := true, setVoice2Result := none,
    say2Result := some PyExc.otherError, run2Result := none }

/-- Every backend call succeeds immediately. -/
def quickEnv : EngineEnv :=
  { sapiAvailable := false, engineAvailable := true, sapiResult := none,
    sayResult := none, runResult := none, sysCmdOk := true, initRaises := false,
    engineAfterInit := true, setVoice2Result := none, say2Result := none,
    run2Result := none }

/-- A text that chunks into exactly two chunks off macOS: two sentences of
101 and 100 characters. -/
def twoChunkText : List Char :=
  List.replicate 100 'a' ++ '.' :: ' ' :: List.replicate 100 'c'

/-- A Linux request environment where everything succeeds and cancellation
never arrives. -/
def quickRequestEnv : RequestEnv :=
  { platform := Platform.linux, ambientMood := "neutral", engineBusy := false,
    setVoiceExc := none, chunkEnv := fun _ => quickEnv, chunkTime := fun _ => 0,
    exitAt := fun _ => false }

/-- As `quickRequestEnv`, but `exit_requested` is observed true from the
check before chunk 1 on: `stop()` arrived while chunk 0 was being spoken. -/
def cancelRequestEnv : RequestEnv :=
  { platform := Platform.linux, ambientMood := "neutral", engineBusy := false,
    setVoiceExc := none, chunkEnv := fun _ => quickEnv, chunkTime := fun _ => 0,
    exitAt := fun i => decide (1 ≤ i) }

/-- A manager whose worker is blocked inside `queue.get` with nothing queued. -/
def idleManager : ManagerState :=
  { queue := [], exitRequested := false, speaking := false,
    phase := WorkerPhase.inGet, spokenTexts := [] }

/-- A manager whose worker has already terminated after a `stop()`. -/
def stoppedManager : ManagerState :=
  { queue := [], exitRequested := true, speaking := false,
    phase := WorkerPhase.dead, spokenTexts := [] }

/-! ### Lemmas about `noAdj` -/

theorem noAdj_of_tail {isP : Char → Bool} {a : Char} {l : List Char}
    (h : noAdj isP (a :: l) = true) : noAdj isP l = true := by
  cases l with
  | nil => rfl
  | cons b r =>
    simp only [noAdj, Bool.and_eq_true] at h
    exact h.2

theorem noAdj_append_right {isP : Char → Bool} :
    ∀ (x l : List Char), noAdj isP (x ++ l) = true → noAdj isP l = true := by
  intro x
  induction x with
  | nil => intro l h; exact h
  | cons a x ih => intro l h; exact ih l (noAdj_of_tail h)

theorem noAdj_append_left {isP : Char → Bool} :
    ∀ (l y : List Char), noAdj isP (l ++ y) = true → noAdj isP l = true := by
  intro l
  induction l with
  | nil => intro y _; rfl
  | cons a l ih =>
    intro y h
    cases l with
    | nil => rfl
    | cons b r =>
      simp only [List.cons_append, noAdj, Bool.and_eq_true] at h ⊢
      exact ⟨h.1, ih y h.2⟩

theorem noAdj_within {isP : Char → Bool} {l₁ l₂ : List Char}
    (h : l₁ <:+: l₂) (h₂ : noAdj isP l₂ = true) : noAdj isP l₁ = true := by
  obtain ⟨s, t, rfl⟩ := h
  exact noAdj_append_right s l₁ (noAdj_append_left (s ++ l₁) t h₂)

/-! ### Lemmas about `splitCore` -/

theorem splitCore_ne_nil (isP : Char → Bool) :
    ∀ (l : List Char) (b : Bool), splitCore isP b l ≠ [] := by
  intro l
  induction l with
  | nil => intro b; simp [splitCore]
  | cons c rest ih =>
    intro b
    simp only [splitCore]
    split
    · exact ih true
    · split
      · simp
      · cases h : splitCore isP false rest with
        | nil => exact absurd h (ih false)
        | cons s ss => simp [consHead]

theorem splitCore_head_starts (isP : Char → Bool) :
    ∀ (l : List Char) (b : Bool) (s : List Char) (ss : List (List Char)),
      splitCore isP b l = s :: ss →
      s <+: (if b then l.dropWhile (fun c => c == ' ') else l) := by
  intro l
  induction l with
  | nil =>
    intro b s ss h
    simp only [splitCore, List.cons.injEq] at h
    cases b <;> simp [← h.1]
  | cons c rest ih =>
    intro b s ss h
    simp only [splitCore] at h
    by_cases h1 : (b && c == ' ') = true
    · rw [if_pos h1] at h
      have hb : b = true := by
        cases b
        · simp at h1
        · rfl
      have hc : c = ' ' := by
        rcases Bool.and_eq_true _ _ |>.mp h1 with ⟨_, hc⟩
        exact beq_iff_eq.mp hc
      have := ih true s ss h
      simp only [if_pos rfl] at this
      subst hb hc
      simpa [List.dropWhile_cons] using this
    · rw [if_neg h1] at h
      have hcne : b = true → ¬(c == ' ') = true := by
        intro hb hcc
        exact h1 (by simp [hb, hcc])
      by_cases h2 : (isP c && rest.head? == some ' ') = true
      · rw [if_pos h2] at h
        simp only [List.cons.injEq] at h
        cases b
        · rw [if_neg Bool.false_ne_true]
          exact h.1 ▸ ⟨rest, rfl⟩
        · have : (c == ' ') = false := by
            cases hcc : (c == ' ')
            · rfl
            · exact absurd hcc (hcne rfl)
          simp only [if_pos rfl, List.dropWhile_cons, this]
          simp only [Bool.false_eq_true, if_false]
          exact h.1 ▸ ⟨rest, rfl⟩
      · rw [if_neg h2] at h
        cases hrec : splitCore isP false rest with
        | nil => exact absurd hrec (splitCore_ne_nil isP rest false)
        | cons s₀ ss₀ =>
          rw [hrec] at h
          simp only [consHead, List.cons.injEq] at h
          obtain ⟨t, ht⟩ : s₀ <+: rest := by
            have := ih false s₀ ss₀ hrec
            simpa using this
          cases b
          · rw [if_neg Bool.false_ne_true]
            exact ⟨t, by simp [← h.1, ht]⟩
          · have : (c == ' ') = false := by
              cases hcc : (c == ' ')
              · rfl
              · exact absurd hcc (hcne rfl)
            simp only [if_pos rfl, List.dropWhile_cons, this]
            simp only [Bool.false_eq_true, if_false]
            exact ⟨t, by simp [← h.1, ht]⟩

theorem splitCore_noAdj (isP : Char → Bool) :
    ∀ (l : List Char) (b : Bool), ∀ s ∈ splitCore isP b l, noAdj isP s = true := by
  intro l
  induction l with
  | nil =>
    intro b s hs
    simp only [splitCore, List.mem_singleton] at hs
    subst hs; rfl
  | cons c rest ih =>
    intro b s hs
    simp only [splitCore] at hs
    by_cases h1 : (b && c == ' ') = true
    · rw [if_pos h1] at hs
      exact ih true s hs
    · rw [if_neg h1] at hs
      by_cases h2 : (isP c && rest.head? == some ' ') = true
      · rw [if_pos h2] at hs
        rcases List.mem_cons.mp hs with hs | hs
        · subst hs; rfl
        · exact ih true s hs
      · rw [if_neg h2] at hs
        cases hrec : splitCore isP false rest with
        | nil => exact absurd hrec (splitCore_ne_nil isP rest false)
        | cons s₀ ss₀ =>
          rw [hrec] at hs
          simp only [consHead] at hs
          rcases List.mem_cons.mp hs with hs | hs
          · subst hs
            cases hs₀ : s₀ with
            | nil => rfl
            | cons d r =>
              have hmem : noAdj isP s₀ = true := ih false s₀ (hrec ▸ List.mem_cons_self _ _)
              have hpre : s₀ <+: rest := by
                have := splitCore_head_starts isP rest false s₀ ss₀ hrec
                simpa using this
              obtain ⟨t, ht⟩ := hpre
              have hhead : rest.head? = some d := by
                rw [← ht, hs₀]; rfl
              have hguard : (isP c && d == ' ') = false := by
                cases hg : (isP c && d == ' ')
                · rfl
                · exfalso
                  apply h2
                  rcases Bool.and_eq_true _ _ |>.mp hg with ⟨hp, hd⟩
                  simp [hp, hhead, beq_iff_eq.mp hd]
              rw [hs₀] at hmem
              simp [noAdj, hguard, hmem]
          · exact ih false s (hrec ▸ List.mem_cons_of_mem _ hs)

theorem splitCore_within (isP : Char → Bool) :
    ∀ (l : List Char) (b : Bool), ∀ s ∈ splitCore isP b l, s <:+: l := by
  intro l
  induction l with
  | nil =>
    intro b s hs
    simp only [splitCore, List.mem_singleton] at hs
    subst hs
    exact ⟨[], [], rfl⟩
  | cons c rest ih =>
    intro b s hs
    simp only [splitCore] at hs
    by_cases h1 : (b && c == ' ') = true
    · rw [if_pos h1] at hs
      obtain ⟨x, y, hxy⟩ := ih true s hs
      exact ⟨c :: x, y, by simp [hxy]⟩
    · rw [if_neg h1] at hs
      by_cases h2 : (isP c && rest.head? == some ' ') = true
      · rw [if_pos h2] at hs
        rcases List.mem_cons.mp hs with hs | hs
        · subst hs
          exact ⟨[], rest, rfl⟩
        · obtain ⟨x, y, hxy⟩ := ih true s hs
          exact ⟨c :: x, y, by simp [hxy]⟩
      · rw [if_neg h2] at hs
        cases hrec : splitCore isP false rest with
        | nil => exact absurd hrec (splitCore_ne_nil isP rest false)
        | cons s₀ ss₀ =>
          rw [hrec] at hs
          simp only [consHead] at hs
          rcases List.mem_cons.mp hs with hs | hs
          · subst hs
            have hpre : s₀ <+: rest := by
              have := splitCore_head_starts isP rest false s₀ ss₀ hrec
              simpa using this
            obtain ⟨t, ht⟩ := hpre
            exact ⟨[], t, by simp [ht]⟩
          · obtain ⟨x, y, hxy⟩ := ih false s (hrec ▸ List.mem_cons_of_mem _ hs)
            exact ⟨c :: x, y, by simp [hxy]⟩

theorem pySplitAfter_noAdj (isP : Char → Bool) (l : List Char) :
    ∀ s ∈ pySplitAfter isP l, noAdj isP s = true :=
  splitCore_noAdj isP l false

theorem pySplitAfter_within (isP : Char → Bool) (l : List Char) :
    ∀ s ∈ pySplitAfter isP l, s <:+: l :=
  splitCore_within isP l false

/-! ### Lemmas about stripping -/

theorem pyStripRight_append_space (l : List Char) :
    pyStripRight (l ++ [' ']) = pyStripRight l := by
  simp [pyStripRight, List.dropWhile_cons, isPyWhite]

theorem length_pyStripRight_le (l : List Char) :
    (pyStripRight l).length ≤ l.length := by
  calc (pyStripRight l).length = (l.reverse.dropWhile isPyWhite).length := by
        simp [pyStripRight]
    _ ≤ l.reverse.length := (List.dropWhile_suffix _).sublist.length_le
    _ = l.length := by simp

theorem length_pyStrip_le_right (l : List Char) :
    (pyStrip l).length ≤ (pyStripRight l).length :=
  (List.dropWhile_suffix _).sublist.length_le

theorem pyStrip_append_space (l : List Char) :
    pyStrip (l ++ [' ']) = pyStrip l := by
  unfold pyStrip
  rw [pyStripRight_append_space]

theorem pyStrip_within (l : List Char) : pyStrip l <:+: l := by
  obtain ⟨x, hx⟩ : pyStrip l <:+ pyStripRight l := List.dropWhile_suffix _
  obtain ⟨y, hy⟩ : l.reverse.dropWhile isPyWhite <:+ l.reverse := List.dropWhile_suffix _
  refine ⟨x, y.reverse, ?_⟩
  have : pyStripRight l ++ y.reverse = l := by
    have := congrArg List.reverse hy
    simpa [pyStripRight] using this
  rw [hx]
  exact this

/-! ### Invariant preservation for `_chunk_text` -/

theorem foldl_inv {α σ : Type _} {f : σ → α → σ} {I : σ → Prop} {P : α → Prop}
    (hstep : ∀ s a, I s → P a → I (f s a)) :
    ∀ (l : List α) (s : σ), I s → (∀ a ∈ l, P a) → I (l.foldl f s) := by
  intro l
  induction l with
  | nil => intro s hs _; exact hs
  | cons a l ih =>
    intro s hs hP
    exact ih (f s a) (hstep s a hs (hP a (List.mem_cons_self a l)))
      (fun x hx => hP x (List.mem_cons_of_mem a hx))

theorem goodChunk_of_strip {size : Nat} {cur : List Char}
    (h : (pyStripRight cur).length ≤ size ∨
      (noAdj isSentencePunct (pyStrip cur) = true ∧
        noAdj isSecondaryPunct (pyStrip cur) = true)) :
    GoodChunk size (pyStrip cur) := by
  rcases h with h | h
  · exact Or.inl ((length_pyStrip_le_right cur).trans h)
  · exact Or.inr h

theorem flushTo_good {size : Nat} {chunks : List (List Char)} {cur : List Char}
    (h1 : ∀ c ∈ chunks, GoodChunk size c) (h2 : GoodChunk size (pyStrip cur)) :
    ∀ c ∈ flushTo chunks cur, GoodChunk size c := by
  intro c hc
  unfold flushTo at hc
  split at hc
  · exact h1 c hc
  · rcases List.mem_append.mp hc with hc | hc
    · exact h1 c hc
    · rw [List.mem_singleton.mp hc]
      exact h2

theorem subStep_inv {size : Nat} (st : List (List Char) × List Char) (part : List Char)
    (hst : SubInv size st)
    (hp : noAdj isSentencePunct part = true ∧ noAdj isSecondaryPunct part = true) :
    SubInv size (subStep size st part) := by
  unfold subStep
  by_cases hfit : st.2.length + part.length ≤ size
  · rw [if_pos hfit]
    refine ⟨hst.1, Or.inl ?_⟩
    calc (pyStripRight (st.2 ++ part ++ [' '])).length
        = (pyStripRight (st.2 ++ part)).length := by rw [pyStripRight_append_space]
      _ ≤ (st.2 ++ part).length := length_pyStripRight_le _
      _ ≤ size := by simpa using hfit
  · rw [if_neg hfit]
    refine ⟨flushTo_good hst.1 (goodChunk_of_strip hst.2), ?_⟩
    by_cases hlen : part.length ≤ size
    · refine Or.inl ?_
      rw [pyStripRight_append_space]
      exact (length_pyStripRight_le _).trans hlen
    · refine Or.inr ?_
      rw [pyStrip_append_space]
      exact ⟨noAdj_within (pyStrip_within part) hp.1,
        noAdj_within (pyStrip_within part) hp.2⟩

theorem chunksAfterSub_good {size : Nat} {chunks : List (List Char)} {sentence : List Char}
    (h1 : ∀ c ∈ chunks, GoodChunk size c)
    (hs : noAdj isSentencePunct sentence = true) :
    ∀ c ∈ chunksAfterSub size chunks sentence, GoodChunk size c := by
  have hsub : SubInv size
      ((pySplitAfter isSecondaryPunct sentence).foldl (subStep size) (chunks, [])) := by
    refine foldl_inv (fun s a hI hP => subStep_inv s a hI hP) _ _ ⟨h1, Or.inl ?_⟩ ?_
    · simp [pyStripRight]
    · intro part hpart
      exact ⟨noAdj_within (pySplitAfter_within _ _ part hpart) hs,
        pySplitAfter_noAdj _ _ part hpart⟩
  unfold chunksAfterSub
  exact flushTo_good hsub.1 (goodChunk_of_strip hsub.2)

theorem sentStep_inv {size : Nat} (st : List (List Char) × List Char) (sentence : List Char)
    (hst : MainInv size st) (hs : noAdj isSentencePunct sentence = true) :
    MainInv size (sentStep size st sentence) := by
  unfold sentStep
  by_cases hfit : st.2.length + sentence.length ≤ size
  · rw [if_pos hfit]
    refine ⟨hst.1, ?_⟩
    calc (pyStripRight (st.2 ++ sentence ++ [' '])).length
        = (pyStripRight (st.2 ++ sentence)).length := by rw [pyStripRight_append_space]
      _ ≤ (st.2 ++ sentence).length := length_pyStripRight_le _
      _ ≤ size := by simpa using hfit
  · rw [if_neg hfit]
    by_cases hlong : size < sentence.length
    · rw [if_pos hlong]
      exact ⟨chunksAfterSub_good
        (flushTo_good hst.1 (Or.inl ((length_pyStrip_le_right _).trans hst.2))) hs, hst.2⟩
    · rw [if_neg hlong]
      refine ⟨flushTo_good hst.1 (Or.inl ((length_pyStrip_le_right _).trans hst.2)), ?_⟩
      rw [pyStripRight_append_space]
      exact (length_pyStripRight_le _).trans (le_of_not_lt hlong)

/-! ### Claims about `_chunk_text` -/

set_option maxRecDepth 20000 in
/-- C2 (code bug): the reconstruction property fails.  On the input
`"Hi. "` followed by 151 `b`s (non-macOS, chunk size 150) the chunker
returns the chunk `"Hi."` twice: the accumulator `current` is flushed before
the oversized sentence is processed but never cleared, so it is flushed
again at the end.  The word sequence of the joined chunks therefore differs
from the word sequence of the input. -/
theorem chunk_text_duplicates_bug :
    chunk_text false dupExample =
      [['H', 'i', '.'], List.replicate 151 'b', ['H', 'i', '.']] ∧
    pyWords (joinChunks (chunk_text false dupExample)) ≠ pyWords dupExample := by
  constructor
  · decide
  · decide

set_option maxRecDepth 20000 in
/-- C3 counterexample: the claim's exception clause requires an oversized
chunk to contain no punctuation at all, but a token of 151 commas (which no
split pattern can divide, because no comma is followed by a space) is emitted
as a single chunk of length 151 > 150 while consisting of punctuation. -/
theorem chunk_bound_counterexample :
    ¬ (∀ c ∈ chunk_text false (List.replicate 151 ','),
        c.length ≤ chunk_size false ∨ ∀ ch ∈ c, isPunctChar ch = false) := by
  decide

/-- C3 (amended): every chunk produced by `_chunk_text` is within the
platform chunk size, except chunks that are single atomic tokens in the
structural sense: they contain no sentence punctuation followed by a space
and no secondary punctuation followed by a space, so neither split pattern
can divide them (they may still contain punctuation characters). -/
theorem chunk_size_bound (m : Bool) (text : List Char) :
    ∀ c ∈ chunk_text m text,
      c.length ≤ chunk_size m ∨
        (noAdj isSentencePunct c = true ∧ noAdj isSecondaryPunct c = true) := by
  intro c hc
  unfold chunk_text at hc
  by_cases hlen : text.length ≤ chunk_size m
  · rw [if_pos hlen] at hc
    rw [List.mem_singleton.mp hc]
    exact Or.inl hlen
  · rw [if_neg hlen] at hc
    have hmain : MainInv (chunk_size m)
        ((pySplitAfter isSentencePunct text).foldl (sentStep (chunk_size m)) ([], [])) := by
      refine foldl_inv (fun s a hI hP => sentStep_inv s a hI hP) _ _ ⟨?_, ?_⟩ ?_
      · intro c hc
        simp at hc
      · simp [pyStripRight]
      · intro s hs
        exact pySplitAfter_noAdj _ _ s hs
    exact flushTo_good hmain.1 (Or.inl ((length_pyStrip_le_right _).trans hmain.2)) c hc

/-- Witness for C3's amended bound at a concrete input. -/
theorem chunk_size_bound_witness :
    (['h', 'i'] ∈ chunk_text false ['h', 'i']) ∧
      (['h', 'i'].length ≤ chunk_size false ∨
        (noAdj isSentencePunct ['h', 'i'] = true ∧
          noAdj isSecondaryPunct ['h', 'i'] = true)) :=
  ⟨by decide, chunk_size_bound false ['h', 'i'] ['h', 'i'] (by decide)⟩

/-- C4 counterexample: on the empty string the fast path returns `[text]`,
i.e. the one-element list containing the empty string, not the empty list the
claim asserts. -/
theorem chunk_text_empty_counterexample : chunk_text false [] ≠ [] := by decide

/-- C4 (amended): on the empty string `_chunk_text` returns the one-element
sequence containing the empty string (and raises no error), on both
platforms. -/
theorem chunk_text_empty :
    chunk_text true [] = [[]] ∧ chunk_text false [] = [[]] := ⟨rfl, rfl⟩

/-- C9: any text within the platform chunk size is returned unchanged as a
single chunk (the fast path of `_chunk_text`). -/
theorem chunk_text_short_identity (m : Bool) (text : List Char)
    (h : text.length ≤ chunk_size m) : chunk_text m text = [text] := by
  unfold chunk_text
  rw [if_pos h]

/-- Witness for C9 at a concrete input. -/
theorem chunk_text_short_identity_witness :
    (['o', 'k'] : List Char).length ≤ chunk_size false ∧
      chunk_text false ['o', 'k'] = [['o', 'k']] :=
  ⟨by decide, chunk_text_short_identity false ['o', 'k'] (by decide)⟩

/-! ### The engine adapter never raises, except through the SAPI handler -/

theorem withEvents_exc (evs : List SpeechEvent) (r : ChunkResult) :
    (withEvents evs r).exc = r.exc := rfl

theorem reinitAndFallback_exc (p : Platform) (ambient : String) (mood : Option String)
    (env : EngineEnv) (now : Int) (st : SpeakChunkState) (chunk : List Char) :
    (reinitAndFallback p ambient mood env now st chunk).exc = none := by
  simp only [reinitAndFallback]
  split <;> rfl

theorem speakChunkEngine_exc (p : Platform) (ambient : String) (mood : Option String)
    (env : EngineEnv) (now : Int) (st : SpeakChunkState) (chunk : List Char) :
    (speakChunkEngine p ambient mood env now st chunk).exc = none := by
  unfold speakChunkEngine
  repeat' split
  all_goals simp [withEvents_exc, reinitAndFallback_exc]

/-- C1 counterexample: on Windows with SAPI available, a SAPI failure whose
class is neither `AttributeError` nor `RuntimeError` (here an `IOError`, as
e.g. a COM error would be) escapes `_speak_chunk`: the handler at line 315
names only those two classes. -/
theorem speak_chunk_sapi_leak :
    (speak_chunk Platform.windows "neutral" none sapiLeakEnv 0 freshState
      ['h', 'i']).exc = some PyExc.ioError := by decide

/-- C1 (amended): `_speak_chunk` propagates no exception to its caller —
in particular, when every audio backend fails in an anticipated way it
completes via the console-print fallback — except in one case: on Windows
with a SAPI engine, a `Speak` failure of a class other than
`AttributeError`/`RuntimeError` propagates. -/
theorem speak_chunk_no_propagation (p : Platform) (ambient : String) (mood : Option String)
    (env : EngineEnv) (now : Int) (st : SpeakChunkState) (chunk : List Char)
    (h : p = Platform.windows → env.sapiAvailable = true →
      sapiOutcomeOk env.sapiResult = true) :
    (speak_chunk p ambient mood env now st chunk).exc = none := by
  simp only [speak_chunk]
  split
  · split <;> rfl
  · split
    · rename_i hw
      cases hs : env.sapiResult with
      | none => rfl
      | some e =>
        have hok := h hw.1 hw.2
        rw [hs] at hok
        simp only [sapiOutcomeOk] at hok
        simp [hok, withEvents_exc, speakChunkEngine_exc]
    · exact speakChunkEngine_exc _ _ _ _ _ _ _

/-- Witness for C1's amended guarantee: on Linux with every backend failing,
no exception escapes. -/
theorem speak_chunk_no_propagation_witness :
    (Platform.linux = Platform.windows → allFailEnv.sapiAvailable = true →
        sapiOutcomeOk allFailEnv.sapiResult = true) ∧
      (speak_chunk Platform.linux "neutral" none allFailEnv 0 freshState
        ['h', 'i']).exc = none :=
  ⟨by decide, speak_chunk_no_propagation Platform.linux "neutral" none allFailEnv 0
    freshState ['h', 'i'] (by decide)⟩

/-! ### No event class leaks out of its layer -/

theorem sysCommandEvents_no_voice (p : Platform) (c : List Char) :
    (sysCommandEvents p c).filter isApplyVoice = [] := by
  unfold sysCommandEvents
  split <;> rfl

theorem sysCommandEvents_no_flag (p : Platform) (c : List Char) :
    (sysCommandEvents p c).filter isFlagEvent = [] := by
  unfold sysCommandEvents
  split <;> rfl

theorem reinitTry_no_flag (p : Platform) (ambient : String) (mood : Option String)
    (env : EngineEnv) (now : Int) (st : SpeakChunkState) (chunk : List Char) :
    (reinitTry p ambient mood env now st chunk).2.2.filter isFlagEvent = [] := by
  simp only [reinitTry]
  repeat' split
  all_goals rfl

theorem finalFallback_no_flag (p : Platform) (env : EngineEnv) (st : SpeakChunkState)
    (chunk : List Char) :
    (finalFallback p env st chunk).2.filter isFlagEvent = [] := by
  unfold finalFallback
  split <;> simp [List.filter_append, sysCommandEvents_no_flag, isFlagEvent]

theorem reinitAndFallback_no_flag (p : Platform) (ambient : String) (mood : Option String)
    (env : EngineEnv) (now : Int) (st : SpeakChunkState) (chunk : List Char) :
    (reinitAndFallback p ambient mood env now st chunk).events.filter isFlagEvent = [] := by
  simp only [reinitAndFallback]
  split
  · exact reinitTry_no_flag _ _ _ _ _ _ _
  · simp [List.filter_append, reinitTry_no_flag, finalFallback_no_flag]

theorem speakChunkEngine_no_flag (p : Platform) (ambient : String) (mood : Option String)
    (env : EngineEnv) (now : Int) (st : SpeakChunkState) (chunk : List Char) :
    (speakChunkEngine p ambient mood env now st chunk).events.filter isFlagEvent = [] := by
  unfold speakChunkEngine withEvents
  repeat' split
  all_goals
    simp [List.filter_append, List.filter_cons, reinitAndFallback_no_flag,
      sysCommandEvents_no_flag, isFlagEvent]

theorem speak_chunk_no_flag (p : Platform) (ambient : String) (mood : Option String)
    (env : EngineEnv) (now : Int) (st : SpeakChunkState) (chunk : List Char) :
    (speak_chunk p ambient mood env now st chunk).events.filter isFlagEvent = [] := by
  simp only [speak_chunk, withEvents]
  repeat' split
  all_goals
    simp [List.filter_append, List.filter_cons, speakChunkEngine_no_flag,
      sysCommandEvents_no_flag, isFlagEvent]

theorem runChunks_no_flag (renv : RequestEnv) (mood : Option String) :
    ∀ (chunks : List (List Char)) (i : Nat) (st : SpeakChunkState),
      (runChunks renv mood i st chunks).events.filter isFlagEvent = [] := by
  intro chunks
  induction chunks with
  | nil => intro i st; rfl
  | cons c rest ih =>
    intro i st
    simp only [runChunks]
    split
    · rfl
    · split
      · exact speak_chunk_no_flag _ _ _ _ _ _ _
      · simp [List.filter_append, speak_chunk_no_flag, ih (i + 1)]

theorem speak_chunk_no_voice_of_quick (p : Platform) (ambient : String)
    (mood : Option String) (env : EngineEnv) (now : Int) (st : SpeakChunkState)
    (chunk : List Char) (hq : QuickSuccessEnv p env) :
    (speak_chunk p ambient mood env now st chunk).events.filter isApplyVoice = [] := by
  simp only [speak_chunk]
  split
  · split <;> simp [List.filter_append, sysCommandEvents_no_voice, isApplyVoice]
  · split
    · rename_i hw
      cases hs : env.sapiResult with
      | none => rfl
      | some e =>
        exfalso
        rcases hq with ⟨_, _, hnone⟩ | ⟨hnw, _⟩
        · rw [hs] at hnone
          exact Option.noConfusion hnone
        · exact hnw hw
    · rename_i hnw
      rcases hq with ⟨hw, hs, _⟩ | ⟨_, hea, hsay, hrun⟩
      · exact absurd ⟨hw, hs⟩ hnw
      · unfold speakChunkEngine
        rw [if_pos hea, hsay, hrun]
        simp [isApplyVoice]

theorem runChunks_no_voice (renv : RequestEnv) (mood : Option String)
    (hq : ∀ i, QuickSuccessEnv renv.platform (renv.chunkEnv i)) :
    ∀ (chunks : List (List Char)) (i : Nat) (st : SpeakChunkState),
      (runChunks renv mood i st chunks).events.filter isApplyVoice = [] := by
  intro chunks
  induction chunks with
  | nil => intro i st; rfl
  | cons c rest ih =>
    intro i st
    simp only [runChunks]
    split
    · rfl
    · split
      · exact speak_chunk_no_voice_of_quick _ _ _ _ _ _ _ (hq i)
      · simp [List.filter_append, speak_chunk_no_voice_of_quick _ _ _ _ _ _ _ (hq i),
          ih (i + 1)]

/-! ### Claims about the worker loop -/

set_option maxRecDepth 20000 in
/-- C6 counterexample: with every backend succeeding, a request whose text
chunks into 2 chunks sees the voice profile applied exactly once (line 417,
before the loop), not before each individual chunk — and the adapter has no
cache of unchanged settings, it simply does not re-apply. -/
theorem voice_per_chunk_counterexample :
    ((processRequest quickRequestEnv freshState twoChunkText none).events.filter
        isApplyVoice).length = 1 ∧
      (processRequest quickRequestEnv freshState twoChunkText none).spoken.length = 2 := by
  constructor <;> decide

/-- C6 (amended): the worker applies the voice profile for the effective
mood exactly once per request, before the first chunk; within
`_speak_chunk` the profile is re-applied only on the engine-reinitialization
failure path, so when every chunk succeeds on its first backend the request
trace contains exactly one application. -/
theorem voice_once_per_request (renv : RequestEnv) (st0 : SpeakChunkState)
    (text : List Char) (mood : Option String)
    (hsv : renv.setVoiceExc = none)
    (hq : ∀ i, QuickSuccessEnv renv.platform (renv.chunkEnv i)) :
    ∃ evs, (processRequest renv st0 text mood).events =
        (if renv.engineBusy then [SpeechEvent.engineStop] else []) ++
          SpeechEvent.flagSet ::
            SpeechEvent.applyVoice (voiceFor renv.platform renv.ambientMood mood) :: evs ∧
      evs.filter isApplyVoice = [] := by
  refine ⟨(runChunks renv mood 0 st0
      (chunk_text (platformIsMacos renv.platform) text)).events ++ [SpeechEvent.flagClear],
    ?_, ?_⟩
  · simp [processRequest, hsv]
  · simp [List.filter_append, runChunks_no_voice renv mood hq, isApplyVoice]

/-- Witness for C6's amended per-request application at a concrete request. -/
theorem voice_once_per_request_witness :
    ∃ evs, (processRequest quickRequestEnv freshState twoChunkText none).events =
        (if quickRequestEnv.engineBusy then [SpeechEvent.engineStop] else []) ++
          SpeechEvent.flagSet ::
            SpeechEvent.applyVoice
              (voiceFor quickRequestEnv.platform quickRequestEnv.ambientMood none) :: evs ∧
      evs.filter isApplyVoice = [] :=
  voice_once_per_request quickRequestEnv freshState twoChunkText none rfl
    (by
      intro i
      right
      refine ⟨?_, rfl, rfl, rfl⟩
      intro hc
      exact Platform.noConfusion hc.1)

/-- C7: while processing one request the speaking flag is set once at the
start, stays set across all of the request's chunks (no flag transition
occurs anywhere in the chunk loop, whatever the backends do, whether
cancellation arrives, and whether the adapter propagates an exception), and
is cleared exactly once, at the end, by the worker's `finally`. -/
theorem speaking_flag_request_scoped (renv : RequestEnv) (st0 : SpeakChunkState)
    (text : List Char) (mood : Option String) :
    ∃ mid, (processRequest renv st0 text mood).events =
        (if renv.engineBusy then [SpeechEvent.engineStop] else []) ++
          SpeechEvent.flagSet :: mid ++ [SpeechEvent.flagClear] ∧
      mid.filter isFlagEvent = [] := by
  cases hsv : renv.setVoiceExc with
  | some e =>
    refine ⟨[SpeechEvent.applyVoice (voiceFor renv.platform renv.ambientMood mood)],
      ?_, by simp [isFlagEvent]⟩
    simp [processRequest, hsv]
  | none =>
    refine ⟨SpeechEvent.applyVoice (voiceFor renv.platform renv.ambientMood mood) ::
      (runChunks renv mood 0 st0
        (chunk_text (platformIsMacos renv.platform) text)).events, ?_, ?_⟩
    · simp [processRequest, hsv]
    · simp [List.filter_cons, List.filter_append, isFlagEvent, runChunks_no_flag]

theorem runChunks_spoken_le (renv : RequestEnv) (mood : Option String) (m : Nat)
    (hmono : ∀ i j, i ≤ j → renv.exitAt i = true → renv.exitAt j = true)
    (hm : renv.exitAt m = true) :
    ∀ (chunks : List (List Char)) (i : Nat) (st : SpeakChunkState),
      (runChunks renv mood i st chunks).spoken.length ≤ m - i := by
  intro chunks
  induction chunks with
  | nil => intro i st; simp [runChunks]
  | cons c rest ih =>
    intro i st
    simp only [runChunks]
    split
    · simp
    · rename_i hexit
      have hi : i < m := by
        by_contra hge
        push_neg at hge
        exact hexit (hmono m i hge hm)
      split
      · simp only [List.length_singleton]
        omega
      · have hrec := ih (i + 1)
          (speak_chunk renv.platform renv.ambientMood mood (renv.chunkEnv i)
            (renv.chunkTime i) st c).state
        simp only [List.length_cons]
        omega

/-- C8: if the worker observes the cancellation flag as set at the check
before chunk `m` (the flag is monotone: once `stop()` set it, it stays set),
then at most `m` chunks of the request are handed to `_speak_chunk`.  A
`stop()` arriving while chunk `k` is being spoken makes the flag true at
every check from `k + 1` on, so at most one further chunk — none — is spoken
after the current one finishes. -/
theorem cancel_latency_at_most_one (renv : RequestEnv) (st0 : SpeakChunkState)
    (text : List Char) (mood : Option String) (m : Nat)
    (hmono : ∀ i j, i ≤ j → renv.exitAt i = true → renv.exitAt j = true)
    (hm : renv.exitAt m = true) :
    (processRequest renv st0 text mood).spoken.length ≤ m := by
  cases hsv : renv.setVoiceExc with
  | some e => simp [processRequest, hsv]
  | none =>
    have := runChunks_spoken_le renv mood m hmono hm
      (chunk_text (platformIsMacos renv.platform) text) 0 st0
    simpa [processRequest, hsv] using this

/-- Witness for C8: cancellation observed from the check before chunk 1 on
limits a two-chunk request to at most 1 spoken chunk. -/
theorem cancel_latency_at_most_one_witness :
    (processRequest cancelRequestEnv freshState twoChunkText none).spoken.length ≤ 1 :=
  cancel_latency_at_most_one cancelRequestEnv freshState twoChunkText none 1
    (by
      intro i j hij hi
      simp only [cancelRequestEnv, decide_eq_true_eq] at hi ⊢
      omega)
    (by decide)

/-! ### Claims about the control surface and the worker lifecycle -/

/-- C5 counterexample: `speak("")` is not a no-op — lines 447-448 enqueue
unconditionally, so the queue grows from empty to one request. -/
theorem speak_empty_counterexample :
    (mstep idleManager (MStep.speakCall [] none)).queue ≠ idleManager.queue ∧
      (mstep idleManager (MStep.speakCall [] none)).queue = [([], none)] := by
  constructor
  · decide
  · decide

/-- C5 (amended): `speak` enqueues every request, the empty text included
(there is no emptiness check); it raises no error and does not itself touch
the speaking flag or the exit flag. -/
theorem speak_enqueues_always (s : ManagerState) (t : List Char) (m : Option String) :
    (mstep s (MStep.speakCall t m)).queue = s.queue ++ [(t, m)] ∧
      (mstep s (MStep.speakCall t m)).speaking = s.speaking ∧
      (mstep s (MStep.speakCall t m)).exitRequested = s.exitRequested :=
  ⟨rfl, rfl, rfl⟩

/-- C10 counterexample: a request enqueued after `stop()` while the worker is
still blocked in `queue.get` does not remain in the queue forever: the worker
dequeues it, sees `exit_requested`, and discards it unspoken (lines 401-403). -/
theorem stop_race_dequeue_counterexample :
    (msteps idleManager
        [MStep.stopCall, MStep.speakCall ['h', 'i'] none, MStep.workerGetResult]).queue =
      [] ∧
      (msteps idleManager
        [MStep.stopCall, MStep.speakCall ['h', 'i'] none,
          MStep.workerGetResult]).spokenTexts = [] := by
  constructor
  · decide
  · decide

theorem mstep_after_stop (s : ManagerState) (st : MStep) (h : s.exitRequested = true) :
    (mstep s st).exitRequested = true ∧
      (mstep s st).spokenTexts = s.spokenTexts ∧
      (s.phase = WorkerPhase.dead →
        (mstep s st).phase = WorkerPhase.dead ∧
          (st ≠ MStep.stopCall → s.queue <+: (mstep s st).queue)) := by
  cases st with
  | speakCall t m =>
    exact ⟨h, rfl, fun hd => ⟨hd, fun _ => ⟨[(t, m)], rfl⟩⟩⟩
  | stopCall =>
    exact ⟨rfl, rfl, fun hd => ⟨hd, fun hne => absurd rfl hne⟩⟩
  | workerEnterLoop =>
    cases hp : s.phase with
    | atLoop =>
      refine ⟨?_, ?_, fun hd => ?_⟩
      · simp [mstep, hp, h]
      · simp [mstep, hp, h]
      · exact absurd hd (by decide)
    | inGet =>
      refine ⟨?_, ?_, fun hd => ?_⟩
      · simp [mstep, hp, h]
      · simp [mstep, hp, h]
      · exact absurd hd (by decide)
    | dead =>
      refine ⟨?_, ?_, fun hd => ⟨?_, fun _ => ?_⟩⟩
      · simp [mstep, hp, h]
      · simp [mstep, hp]
      · simp [mstep, hp]
      · simp [mstep, hp]
  | workerGetResult =>
    cases hp : s.phase with
    | inGet =>
      cases hq : s.queue with
      | nil =>
        refine ⟨?_, ?_, fun hd => ?_⟩
        · simp [mstep, hp, hq, h]
        · simp [mstep, hp, hq, h]
        · exact absurd hd (by decide)
      | cons x rest =>
        refine ⟨?_, ?_, fun hd => ?_⟩
        · cases x with
          | mk t mo => simp [mstep, hp, hq, h]
        · cases x with
          | mk t mo => simp [mstep, hp, hq, h]
        · exact absurd hd (by decide)
    | atLoop =>
      refine ⟨?_, ?_, fun hd => ?_⟩
      · simp [mstep, hp, h]
      · simp [mstep, hp]
      · exact absurd hd (by decide)
    | dead =>
      refine ⟨?_, ?_, fun hd => ⟨?_, fun _ => ?_⟩⟩
      · simp [mstep, hp, h]
      · simp [mstep, hp]
      · simp [mstep, hp]
      · simp [mstep, hp]

/-- C10 (amended): once `stop()` has set `exit_requested` it is never reset
and nothing further is ever spoken; once the worker has terminated it stays
terminated, and — as long as no further `stop()` drains the queue — every
request enqueued by a later `speak()` remains in the queue forever.  (A
request enqueued after `stop()` but before the worker observes the flag may
instead be dequeued once and discarded unspoken.) -/
theorem stop_permanent (s : ManagerState) (steps : List MStep)
    (h : s.exitRequested = true) :
    (msteps s steps).exitRequested = true ∧
      (msteps s steps).spokenTexts = s.spokenTexts ∧
      (s.phase = WorkerPhase.dead →
        (msteps s steps).phase = WorkerPhase.dead ∧
          (MStep.stopCall ∉ steps → s.queue <+: (msteps s steps).queue)) := by
  induction steps generalizing s with
  | nil => exact ⟨h, rfl, fun hd => ⟨hd, fun _ => ⟨[], by simp [msteps]⟩⟩⟩
  | cons a steps ih =>
    have h1 := mstep_after_stop s a h
    have h2 := ih (mstep s a) h1.1
    refine ⟨h2.1, h2.2.1.trans h1.2.1, fun hd => ?_⟩
    have hdead := h1.2.2 hd
    have h3 := h2.2.2 hdead.1
    refine ⟨h3.1, fun hnm => ?_⟩
    have hna : a ≠ MStep.stopCall := fun hae => hnm (hae ▸ List.mem_cons_self a steps)
    have hns : MStep.stopCall ∉ steps := fun hm => hnm (List.mem_cons_of_mem a hm)
    obtain ⟨u, hu⟩ := hdead.2 hna
    obtain ⟨v, hv⟩ := h3.2 hns
    exact ⟨u ++ v, by rw [← List.append_assoc, hu]; exact hv⟩

/-- Witness for C10's amended permanence at a concrete stopped manager. -/
theorem stop_permanent_witness :
    (msteps stoppedManager
        [MStep.speakCall ['h', 'i'] none, MStep.workerEnterLoop]).exitRequested = true ∧
      (msteps stoppedManager
        [MStep.speakCall ['h', 'i'] none, MStep.workerEnterLoop]).spokenTexts =
        stoppedManager.spokenTexts ∧
      (stoppedManager.phase = WorkerPhase.dead →
        (msteps stoppedManager
          [MStep.speakCall ['h', 'i'] none, MStep.workerEnterLoop]).phase =
            WorkerPhase.dead ∧
          (MStep.stopCall ∉ [MStep.speakCall ['h', 'i'] none, MStep.workerEnterLoop] →
            stoppedManager.queue <+:
              (msteps stoppedManager
                [MStep.speakCall ['h', 'i'] none, MStep.workerEnterLoop]).queue)) :=
  stop_permanent stoppedManager [MStep.speakCall ['h', 'i'] none, MStep.workerEnterLoop] rfl

end Pan
